import Mathlib

/-!
Shallow embedding of the reward-distribution core of this repository:
the allocation computation of `scripts/incentives/stipLpIncentives.ts`
(reconciliation tolerance, floor-division proportional rewards, minimum
reward threshold, over-allocation check) and the batch submission script
(`batchSend.ts` family): idempotency-ledger check, allowance/approval
phase, chunking into batches of 150, per-batch duplicate scan, dry-run
versus live submission, and the final ledger update.

BigNumber values are non-negative integers throughout the source, so they
are embedded as `Nat` (differences that may be negative go through `Int`).
JavaScript objects used as string-keyed maps are embedded as association
lists in insertion order, matching `Object.entries` iteration order.
External collaborators (the ERC20 token and the BatchSender contract, the
RPC provider) are modelled by an oracle structure `Chain`: an initial
allowance and a per-batch transaction outcome.
-/

namespace Dfx

/-- `expandDecimals(n, d) = n * 10^d` from `utils/math.ts`. -/
def expandDecimals (n decimals : Nat) : Nat := n * 10 ^ decimals

/-- Association-list lookup over string keys: JS property access `obj[key]`
on an object embedded as its entry list. -/
def lookupStr {α : Type} : List (String × α) → String → Option α
  | [], _ => none
  | (k, v) :: rest, key => if k = key then some v else lookupStr rest key

/-! ## stipLpIncentives.ts : the AllocationComputer -/

/-- Per-market data assembled by `requestBalancesData`: the recorded market
tokens supply and the per-account balances (`userBalances`), in entry
order. -/
structure MarketData where
  marketTokensSupply : Nat
  userBalances : List (String × Nat)
deriving DecidableEq

/-- Fatal errors of the allocation run (each is a `throw` in `main` of
`stipLpIncentives.ts`). -/
inductive AllocError where
  | noBalancesData (market : String)
  | reconciliation (market : String) (supply balancesSum : Nat)
  | overAllocation (userTotalRewards totalRewards : Nat)
deriving DecidableEq

/-- Per-market per-account reward:
`userBalance.mul(marketRewards).div(marketTokensSupply)` — exact integer
floor division (line 187 of `stipLpIncentives.ts`). -/
def userReward (userBalance marketRewards marketTokensSupply : Nat) : Nat :=
  userBalance * marketRewards / marketTokensSupply

/-- `usersDistributionResult[userAccount] = (existing or 0) + amount`:
insertion into a JS object keyed by account (new keys are appended,
existing keys accumulate in place). -/
def addReward : List (String × Nat) → String → Nat → List (String × Nat)
  | [], user, amount => [(user, amount)]
  | (u, v) :: rest, user, amount =>
    if u = user then (u, v + amount) :: rest
    else (u, v) :: addReward rest user amount

/-- The inner loop over `Object.entries(userBalances)` for one market:
adds `userReward` of every account into the accumulated distribution
result (lines 182-199 of `stipLpIncentives.ts`). -/
def applyMarketRewards (md : MarketData) (marketRewards : Nat)
    (acc : List (String × Nat)) : List (String × Nat) :=
  md.userBalances.foldl
    (fun acc p => addReward acc p.1 (userReward p.2 marketRewards md.marketTokensSupply))
    acc

/-- The loop over `Object.keys(lpAllocationData.rewardsPerMarket)`
(lines 155-200): per market it requires balances data to be present,
checks the reconciliation tolerance
`userBalancesSum.sub(marketTokensSupply).abs().gt(expandDecimals(1, 18))`,
and accumulates every account's floor-division reward. -/
def processMarkets (balancesData : List (String × MarketData)) :
    List (String × Nat) → List (String × Nat) → Except AllocError (List (String × Nat))
  | [], acc => Except.ok acc
  | (marketAddress, marketRewards) :: rest, acc =>
    match lookupStr balancesData marketAddress with
    | none => Except.error (AllocError.noBalancesData marketAddress)
    | some md =>
      let userBalancesSum := (md.userBalances.map Prod.snd).sum
      if (((userBalancesSum : Int) - (md.marketTokensSupply : Int)).natAbs >
          expandDecimals 1 18) then
        Except.error
          (AllocError.reconciliation marketAddress md.marketTokensSupply userBalancesSum)
      else
        processMarkets balancesData rest (applyMarketRewards md marketRewards acc)

/-- `MIN_REWARD_THRESHOLD = expandDecimals(1, 17)` — 0.1 token at
18 decimals (line 202). -/
def MIN_REWARD_THRESHOLD : Nat := expandDecimals 1 17

/-- The filtering loop (lines 208-226): every account's reward is added to
`userTotalRewards` first; accounts with `userRewards.lt(MIN_REWARD_THRESHOLD)`
are then skipped (`continue`), the others are appended to `jsonResult`.
The source iterates in reward-sorted order purely for log readability; the
accumulated total and the set of included entries do not depend on that
order, and the embedding iterates in entry order. -/
def filterLoop : List (String × Nat) → Nat → List (String × Nat) →
    Nat × List (String × Nat)
  | [], userTotalRewards, jsonResult => (userTotalRewards, jsonResult)
  | (userAccount, userRewards) :: rest, userTotalRewards, jsonResult =>
    if userRewards < MIN_REWARD_THRESHOLD then
      filterLoop rest (userTotalRewards + userRewards) jsonResult
    else
      filterLoop rest (userTotalRewards + userRewards)
        (jsonResult ++ [(userAccount, userRewards)])

/-- The filtering stage applied to the whole distribution result, starting
from `userTotalRewards = 0` and an empty `jsonResult`. -/
def filterStage (dist : List (String × Nat)) : Nat × List (String × Nat) :=
  filterLoop dist 0 []

/-- Threshold filtering followed by the over-allocation check
(lines 208-232): `if (userTotalRewards.gt(lpAllocationData.totalRewards))`
throws; note the compared total is the sum over ALL accounts, accumulated
before the threshold `continue`. -/
def thresholdAndCheck (dist : List (String × Nat)) (totalRewards : Nat) :
    Except AllocError (List (String × Nat)) :=
  let r := filterStage dist
  if r.1 > totalRewards then
    Except.error (AllocError.overAllocation r.1 totalRewards)
  else
    Except.ok r.2

/-- The AllocationComputer: market processing, then threshold filtering and
the over-allocation check; only a fully successful run produces the output
mapping (`saveDistribution` runs last, so an error writes no output). -/
def allocationComputer (balancesData : List (String × MarketData))
    (rewardsPerMarket : List (String × Nat)) (totalRewards : Nat) :
    Except AllocError (List (String × Nat)) :=
  match processMarkets balancesData rewardsPerMarket [] with
  | Except.error e => Except.error e
  | Except.ok dist => thresholdAndCheck dist totalRewards

/-- Recognizes a reconciliation failure among the run outcomes. -/
def isReconciliationErr {α : Type} : Except AllocError α → Bool
  | Except.error (AllocError.reconciliation _ _ _) => true
  | _ => false

/-- Recognizes an over-allocation failure among the run outcomes. -/
def isOverAllocationErr {α : Type} : Except AllocError α → Bool
  | Except.error (AllocError.overAllocation _ _) => true
  | _ => false

/-! ## batchSend.ts : the BatchSubmitter and the IdempotencyLedger -/

/-- Environment-driven mode switches of `batchSend.ts`:
`WRITE === "true"`, `SKIP_MIGRATION_VALIDATION`, `DRY_RUN`. -/
structure Env where
  write : Bool
  skipMigrationValidation : Bool
  dryRun : Bool
deriving DecidableEq

/-- The distribution file content (`readDistributionFile`): token address,
the `amounts` object as its ordered entry list, distribution type id and
distribution id. -/
structure DistributionData where
  token : String
  amounts : List (String × Nat)
  distributionTypeId : Nat
  id : Nat
deriving DecidableEq

/-- The parsed `.migrations.json` mapping: distribution id to completion
unix timestamp. -/
abbrev Migrations := List (Nat × Nat)

/-- `readMigrations`: a missing ledger file is an empty ledger, otherwise
the parsed mapping (JSON parsing of the well-formed file is abstracted to
the mapping itself). -/
def readMigrations : Option Migrations → Migrations
  | none => []
  | some m => m

/-- Ledger lookup `migrations[data.id]`. -/
def lookupMigration : Migrations → Nat → Option Nat
  | [], _ => none
  | (k, v) :: rest, id => if k = id then some v else lookupMigration rest id

/-- JS truthiness of `migrations[data.id]`: present and non-zero.
(`undefined` and `0` are falsy; a recorded timestamp is
`Math.floor(Date.now() / 1000)`, positive for any real clock.) -/
def hasTruthyEntry (m : Migrations) (id : Nat) : Bool :=
  match lookupMigration m id with
  | some t => t != 0
  | none => false

/-- `migrations[data.id] = timestamp`: JS object update (replace in place
if present, append otherwise). -/
def setMigration : Migrations → Nat → Nat → Migrations
  | [], id, ts => [(id, ts)]
  | (k, v) :: rest, id, ts =>
    if k = id then (k, ts) :: rest else (k, v) :: setMigration rest id ts

/-- `const batchSize = 150` (line 215 of `batchSend.ts`). -/
def batchSize : Nat := 150

/-- The Arbitrum BatchSender address from `getArbValues`. -/
def batchSenderAddress : String := "0x5384E6cAd96B2877B5B3337A277577053BD1941D"

/-- On-chain actions the script can perform; `simulateBatch` is the
`callStatic.sendAndEmit` no-state-change simulation used under `DRY_RUN`,
`sendBatch` the real `sendAndEmit` transaction. -/
inductive Action where
  | approve (token spender : String) (amount : Nat)
  | sendBatch (token : String) (recipients : List String) (amounts : List Nat) (typeId : Nat)
  | simulateBatch (token : String) (recipients : List String) (amounts : List Nat) (typeId : Nat)
deriving DecidableEq

/-- Fatal errors of the submission run (each is a `throw`, or a rejected
transaction/simulation promise, in `main` of `batchSend.ts`). -/
inductive RunError where
  | alreadySent (id : Nat)
  | duplicatedRecipient (recipient : String) (fromIdx toIdx : Nat)
  | batchTxFailed (fromIdx toIdx : Nat)
deriving DecidableEq

/-- The external chain as the script observes it: the signer's current
token allowance to the BatchSender, and whether the k-th batch call
(transaction or simulation) succeeds. -/
structure Chain where
  allowance : Nat
  batchTxSucceeds : Nat → Bool

/-- Outcome of one submission run: the on-chain actions performed in
order, the ledger file afterwards, and the result. -/
structure RunResult where
  actions : List Action
  ledgerFile : Option Migrations
  outcome : Except RunError Unit

/-- `amounts.reduce((acc, amount) => acc.add(amount), 0)`. -/
def totalAmountOf (amounts : List Nat) : Nat := amounts.foldl (· + ·) 0

/-- The approval phase (lines 221-230): one `approve` transaction for the
full total when `allowance.lt(totalAmount)`, nothing otherwise. -/
def approveActions (chain : Chain) (token : String) (totalAmount : Nat) : List Action :=
  if chain.allowance < totalAmount then
    [Action.approve token batchSenderAddress totalAmount]
  else
    []

/-- ERC20 allowance of the signer to the BatchSender after the approval
phase: `approve(spender, totalAmount)` sets it to `totalAmount`, and with
no approval it stays at its initial value (the token contract is an
external collaborator with standard ERC20 semantics). -/
def allowanceAfterApprove (chain : Chain) (totalAmount : Nat) : Nat :=
  if chain.allowance < totalAmount then totalAmount else chain.allowance

/-- `slice`-based chunking, rendered with explicit fuel: the source
iterates `for (const from of range(0, amounts.length, batchSize))` taking
`slice(from, from + batchSize)` per step; each step consumes at least one
element when the batch size is positive, so fuel `l.length` suffices. -/
def chunksAux {α : Type} (bs : Nat) : Nat → List α → List (List α)
  | _, [] => []
  | 0, l => [l]
  | fuel + 1, l => l.take bs :: chunksAux bs fuel (l.drop bs)

/-- Partition of a list into contiguous batches of at most `bs` entries in
input order (the `range`/`slice` loop shared by `main` and
`getBatchSenderCalldata`). -/
def chunks {α : Type} (bs : Nat) (l : List α) : List (List α) :=
  chunksAux bs l.length l

/-- The per-batch duplicate scan (lines 241-252): the first recipient of
the batch already in `seenRecipients` — the set created once before the
batch loop and never added to. -/
def findDuplicate (seenRecipients : List String) (batchRecipients : List String) :
    Option String :=
  batchRecipients.find? (fun r => seenRecipients.contains r)

/-- The batch loop (lines 232-268): per batch, the duplicate scan against
`seenRecipients`, then under `DRY_RUN` a `callStatic` simulation and
otherwise a real `sendAndEmit` transaction awaited to confirmation; a
failed call aborts the run. `k` is the batch index (for the chain oracle)
and `fromIdx` the start offset of the batch, as in the log messages. -/
def sendLoop (env : Env) (chain : Chain) (token : String) (typeId : Nat)
    (seenRecipients : List String) :
    Nat → Nat → List (List String × List Nat) → List Action × Except RunError Unit
  | _, _, [] => ([], Except.ok ())
  | k, fromIdx, batch :: rest =>
    let toIdx := fromIdx + batch.1.length
    match findDuplicate seenRecipients batch.1 with
    | some r => ([], Except.error (RunError.duplicatedRecipient r fromIdx toIdx))
    | none =>
      let act :=
        if env.dryRun then Action.simulateBatch token batch.1 batch.2 typeId
        else Action.sendBatch token batch.1 batch.2 typeId
      if chain.batchTxSucceeds k then
        let res := sendLoop env chain token typeId seenRecipients (k + 1) toIdx rest
        (act :: res.1, res.2)
      else
        ([act], Except.error (RunError.batchTxFailed fromIdx toIdx))

/-- `main` of `batchSend.ts` after the distribution file is read: the
idempotency check `migrations[data.id] && !SKIP_MIGRATION_VALIDATION`;
in write mode the approval phase, the batch loop over the 150-sized
slices of the `amounts` entries, and on full success the ledger update
`migrations[data.id] = now` written by `saveMigrations`; read-only mode
performs no action and leaves the file alone. -/
def runMain (env : Env) (chain : Chain) (ledgerFile : Option Migrations)
    (data : DistributionData) (now : Nat) : RunResult :=
  let migrations := readMigrations ledgerFile
  if hasTruthyEntry migrations data.id && !env.skipMigrationValidation then
    ⟨[], ledgerFile, Except.error (RunError.alreadySent data.id)⟩
  else if env.write then
    let recipients := data.amounts.map Prod.fst
    let amounts := data.amounts.map Prod.snd
    let totalAmount := totalAmountOf amounts
    let approveActs := approveActions chain data.token totalAmount
    let batches := (chunks batchSize recipients).zip (chunks batchSize amounts)
    let loopRes := sendLoop env chain data.token data.distributionTypeId [] 0 0 batches
    match loopRes.2 with
    | Except.ok _ =>
      ⟨approveActs ++ loopRes.1, some (setMigration migrations data.id now), Except.ok ()⟩
    | Except.error e => ⟨approveActs ++ loopRes.1, ledgerFile, Except.error e⟩
  else
    ⟨[], ledgerFile, Except.ok ()⟩

/-- Recognizes the idempotency failure among the run outcomes. -/
def isAlreadySentErr : Except RunError Unit → Bool
  | Except.error (RunError.alreadySent _) => true
  | _ => false

/-- Recognizes the duplicated-recipient failure among the run outcomes. -/
def isDuplicatedRecipientErr : Except RunError Unit → Bool
  | Except.error (RunError.duplicatedRecipient _ _ _) => true
  | _ => false

/-- Concrete account name used in witnesses. -/
def accA : String := "accountA"

/-- Second concrete account name used in witnesses. -/
def accB : String := "accountB"

/-- Concrete token address used in witnesses. -/
def tokT : String := "tokenT"

/-- Concrete market address used in witnesses. -/
def mktM : String := "marketM"

/-! ## Helper lemmas -/

theorem chunksAux_join {α : Type} (bs : Nat) (hbs : 0 < bs) :
    ∀ (fuel : Nat) (l : List α), l.length ≤ fuel → (chunksAux bs fuel l).flatten = l := by
  intro fuel
  induction fuel with
  | zero =>
    intro l hl
    have hn : l = [] := List.length_eq_zero.mp (Nat.le_zero.mp hl)
    subst hn
    simp [chunksAux]
  | succ n ih =>
    intro l hl
    cases l with
    | nil => simp [chunksAux]
    | cons x xs =>
      have hlen : (List.drop bs (x :: xs)).length ≤ n := by
        rw [List.length_drop]
        simp only [List.length_cons] at hl ⊢
        omega
      calc (chunksAux bs (n + 1) (x :: xs)).flatten
          = (x :: xs).take bs ++ (chunksAux bs n ((x :: xs).drop bs)).flatten := by
            simp [chunksAux]
        _ = (x :: xs).take bs ++ (x :: xs).drop bs := by rw [ih _ hlen]
        _ = x :: xs := List.take_append_drop bs (x :: xs)

theorem chunksAux_mem_length {α : Type} (bs : Nat) (hbs : 0 < bs) :
    ∀ (fuel : Nat) (l : List α), l.length ≤ fuel →
      ∀ c ∈ chunksAux bs fuel l, c.length ≤ bs := by
  intro fuel
  induction fuel with
  | zero =>
    intro l hl c hc
    have hn : l = [] := List.length_eq_zero.mp (Nat.le_zero.mp hl)
    subst hn
    simp [chunksAux] at hc
  | succ n ih =>
    intro l hl c hc
    cases l with
    | nil => simp [chunksAux] at hc
    | cons x xs =>
      simp only [chunksAux, List.mem_cons] at hc
      rcases hc with hc | hc
      · subst hc
        rw [List.length_take]
        exact Nat.min_le_left _ _
      · refine ih _ ?_ c hc
        rw [List.length_drop]
        simp only [List.length_cons] at hl ⊢
        omega

theorem findDuplicate_nil (l : List String) : findDuplicate [] l = none := by
  simp [findDuplicate, List.find?_eq_none]

theorem sendLoop_outcome (env : Env) (chain : Chain) (token : String) (typeId : Nat) :
    ∀ (batches : List (List String × List Nat)) (k fromIdx : Nat),
      (sendLoop env chain token typeId [] k fromIdx batches).2 = Except.ok () ∨
      ∃ a b, (sendLoop env chain token typeId [] k fromIdx batches).2 =
        Except.error (RunError.batchTxFailed a b) := by
  intro batches
  induction batches with
  | nil => intro k fromIdx; left; rfl
  | cons batch rest ih =>
    intro k fromIdx
    cases hk : chain.batchTxSucceeds k with
    | true =>
      simpa [sendLoop, findDuplicate_nil, hk] using ih (k + 1) (fromIdx + batch.1.length)
    | false =>
      right
      refine ⟨fromIdx, fromIdx + batch.1.length, ?_⟩
      simp [sendLoop, findDuplicate_nil, hk]

theorem sendLoop_all_success (env : Env) (chain : Chain) (token : String) (typeId : Nat)
    (hall : ∀ k, chain.batchTxSucceeds k = true) :
    ∀ (batches : List (List String × List Nat)) (k fromIdx : Nat),
      (sendLoop env chain token typeId [] k fromIdx batches).2 = Except.ok () := by
  intro batches
  induction batches with
  | nil => intro k fromIdx; rfl
  | cons batch rest ih =>
    intro k fromIdx
    simpa [sendLoop, findDuplicate_nil, hall k] using ih (k + 1) (fromIdx + batch.1.length)

theorem sendLoop_dry_actions (env : Env) (chain : Chain) (token : String) (typeId : Nat)
    (hdry : env.dryRun = true) :
    ∀ (batches : List (List String × List Nat)) (k fromIdx : Nat) (a : Action),
      a ∈ (sendLoop env chain token typeId [] k fromIdx batches).1 →
      ∃ t rs ams ty, a = Action.simulateBatch t rs ams ty := by
  intro batches
  induction batches with
  | nil =>
    intro k fromIdx a ha
    simp [sendLoop] at ha
  | cons batch rest ih =>
    intro k fromIdx a ha
    cases hk : chain.batchTxSucceeds k with
    | true =>
      simp only [sendLoop, findDuplicate_nil, hdry, hk, if_true, List.mem_cons] at ha
      rcases ha with ha | ha
      · exact ⟨token, batch.1, batch.2, typeId, ha⟩
      · exact ih (k + 1) (fromIdx + batch.1.length) a ha
    | false =>
      simp only [sendLoop, findDuplicate_nil, hdry, hk] at ha
      simp at ha
      exact ⟨token, batch.1, batch.2, typeId, ha⟩

theorem lookup_setMigration (m : Migrations) (id ts : Nat) :
    lookupMigration (setMigration m id ts) id = some ts := by
  induction m with
  | nil => simp [setMigration, lookupMigration]
  | cons p rest ih =>
    obtain ⟨k, v⟩ := p
    by_cases hk : k = id
    · simp [setMigration, lookupMigration, hk]
    · simp [setMigration, lookupMigration, hk, ih]

theorem div_add_div_le (a b c : Nat) : a / c + b / c ≤ (a + b) / c := by
  rcases Nat.eq_zero_or_pos c with hc | hc
  · subst hc; simp
  · rw [Nat.le_div_iff_mul_le hc, Nat.add_mul]
    exact Nat.add_le_add (Nat.div_mul_le_self a c) (Nat.div_mul_le_self b c)

theorem mapRewards_sum_le (balances : List (String × Nat)) (R S : Nat) :
    ((balances.map fun p => userReward p.2 R S).sum) ≤
      ((balances.map Prod.snd).sum * R) / S := by
  induction balances with
  | nil => simp
  | cons p rest ih =>
    simp only [List.map_cons, List.sum_cons]
    calc userReward p.2 R S + (rest.map fun q => userReward q.2 R S).sum
        ≤ userReward p.2 R S + ((rest.map Prod.snd).sum * R) / S :=
          Nat.add_le_add_left ih _
      _ = p.2 * R / S + ((rest.map Prod.snd).sum * R) / S := rfl
      _ ≤ (p.2 * R + (rest.map Prod.snd).sum * R) / S := div_add_div_le _ _ _
      _ = ((p.2 + (rest.map Prod.snd).sum) * R) / S := by rw [Nat.add_mul]

theorem filterLoop_fst (l : List (String × Nat)) :
    ∀ (tot : Nat) (json : List (String × Nat)),
      (filterLoop l tot json).1 = tot + (l.map Prod.snd).sum := by
  induction l with
  | nil => intro tot json; simp [filterLoop]
  | cons p rest ih =>
    intro tot json
    obtain ⟨u, r⟩ := p
    by_cases hr : r < MIN_REWARD_THRESHOLD
    · simp only [filterLoop, hr, if_true, ih, List.map_cons, List.sum_cons]
      omega
    · simp only [filterLoop, hr, if_false, ih, List.map_cons, List.sum_cons]
      omega

theorem filterLoop_mem (l : List (String × Nat)) :
    ∀ (tot : Nat) (json : List (String × Nat)) (p : String × Nat),
      p ∈ (filterLoop l tot json).2 ↔
        p ∈ json ∨ (p ∈ l ∧ MIN_REWARD_THRESHOLD ≤ p.2) := by
  induction l with
  | nil => intro tot json p; simp [filterLoop]
  | cons q rest ih =>
    intro tot json p
    obtain ⟨u, r⟩ := q
    by_cases hr : r < MIN_REWARD_THRESHOLD
    · rw [show filterLoop ((u, r) :: rest) tot json = filterLoop rest (tot + r) json by
        simp [filterLoop, hr]]
      rw [ih]
      constructor
      · rintro (h | ⟨h1, h2⟩)
        · exact Or.inl h
        · exact Or.inr ⟨List.mem_cons_of_mem _ h1, h2⟩
      · rintro (h | ⟨h1, h2⟩)
        · exact Or.inl h
        · rcases List.mem_cons.mp h1 with h1 | h1
          · exfalso
            subst h1
            exact absurd h2 (Nat.not_le.mpr hr)
          · exact Or.inr ⟨h1, h2⟩
    · rw [show filterLoop ((u, r) :: rest) tot json =
          filterLoop rest (tot + r) (json ++ [(u, r)]) by simp [filterLoop, hr]]
      rw [ih, List.mem_append, List.mem_singleton]
      constructor
      · rintro ((h | h) | ⟨h1, h2⟩)
        · exact Or.inl h
        · subst h
          exact Or.inr ⟨List.mem_cons_self _ _, Nat.le_of_not_lt hr⟩
        · exact Or.inr ⟨List.mem_cons_of_mem _ h1, h2⟩
      · rintro (h | ⟨h1, h2⟩)
        · exact Or.inl (Or.inl h)
        · rcases List.mem_cons.mp h1 with h1 | h1
          · exact Or.inl (Or.inr h1)
          · exact Or.inr ⟨h1, h2⟩

theorem processMarkets_recon_sound (balancesData : List (String × MarketData)) :
    ∀ (rewardsPerMarket : List (String × Nat)) (acc : List (String × Nat))
      (m : String) (s b : Nat),
      processMarkets balancesData rewardsPerMarket acc =
        Except.error (AllocError.reconciliation m s b) →
      ∃ md, lookupStr balancesData m = some md ∧
        s = md.marketTokensSupply ∧
        b = (md.userBalances.map Prod.snd).sum ∧
        ((b : Int) - (s : Int)).natAbs > expandDecimals 1 18 := by
  intro rewardsPerMarket
  induction rewardsPerMarket with
  | nil =>
    intro acc m s b h
    exact absurd h (by simp [processMarkets])
  | cons q rest ih =>
    intro acc m s b h
    obtain ⟨ma, mr⟩ := q
    simp only [processMarkets] at h
    cases hl : lookupStr balancesData ma with
    | none =>
      rw [hl] at h
      exact absurd h (by simp)
    | some md =>
      rw [hl] at h
      simp only at h
      by_cases hc : ((((md.userBalances.map Prod.snd).sum : Int) -
          (md.marketTokensSupply : Int)).natAbs > expandDecimals 1 18)
      · rw [if_pos hc] at h
        have hinj := h
        simp only [Except.error.injEq, AllocError.reconciliation.injEq] at hinj
        obtain ⟨h1, h2, h3⟩ := hinj
        subst h1; subst h2; subst h3
        exact ⟨md, hl, rfl, rfl, hc⟩
      · rw [if_neg hc] at h
        exact ih _ m s b h

theorem processMarkets_no_recon (balancesData : List (String × MarketData)) :
    ∀ (rewardsPerMarket : List (String × Nat)) (acc : List (String × Nat)),
      (∀ ma mr, (ma, mr) ∈ rewardsPerMarket →
        ∀ md, lookupStr balancesData ma = some md →
          ((((md.userBalances.map Prod.snd).sum : Int) -
            (md.marketTokensSupply : Int)).natAbs ≤ expandDecimals 1 18)) →
      isReconciliationErr (processMarkets balancesData rewardsPerMarket acc) = false := by
  intro rewardsPerMarket
  induction rewardsPerMarket with
  | nil => intro acc h; rfl
  | cons q rest ih =>
    intro acc h
    obtain ⟨ma, mr⟩ := q
    simp only [processMarkets]
    cases hl : lookupStr balancesData ma with
    | none => simp [isReconciliationErr]
    | some md =>
      have htol := h ma mr (List.mem_cons_self _ _) md hl
      have hnc : ¬ ((((md.userBalances.map Prod.snd).sum : Int) -
          (md.marketTokensSupply : Int)).natAbs > expandDecimals 1 18) :=
        Nat.not_lt.mpr htol
      simp only
      rw [if_neg hnc]
      exact ih _ (fun ma2 mr2 hmem => h ma2 mr2 (List.mem_cons_of_mem _ hmem))

theorem allocationComputer_recon_iff (bd : List (String × MarketData))
    (rewardsPerMarket : List (String × Nat)) (T : Nat) (m : String) (s b : Nat) :
    allocationComputer bd rewardsPerMarket T =
        Except.error (AllocError.reconciliation m s b) ↔
      processMarkets bd rewardsPerMarket [] =
        Except.error (AllocError.reconciliation m s b) := by
  unfold allocationComputer
  cases h : processMarkets bd rewardsPerMarket [] with
  | error e => simp
  | ok dist =>
    simp only
    unfold thresholdAndCheck
    constructor
    · intro hh
      by_cases hc : (filterStage dist).1 > T
      · rw [if_pos hc] at hh
        exact absurd hh (by simp)
      · rw [if_neg hc] at hh
        exact absurd hh (by simp)
    · intro hh
      exact absurd hh (by simp)

theorem allocationComputer_isRecon (bd : List (String × MarketData))
    (rewardsPerMarket : List (String × Nat)) (T : Nat) :
    isReconciliationErr (allocationComputer bd rewardsPerMarket T) =
      isReconciliationErr (processMarkets bd rewardsPerMarket []) := by
  unfold allocationComputer
  cases h : processMarkets bd rewardsPerMarket [] with
  | error e => simp
  | ok dist =>
    simp only
    unfold thresholdAndCheck
    by_cases hc : (filterStage dist).1 > T
    · rw [if_pos hc]; rfl
    · rw [if_neg hc]; rfl

theorem runMain_pass_not_alreadySent (env : Env) (chain : Chain)
    (file : Option Migrations) (data : DistributionData) (now : Nat)
    (hpass : (hasTruthyEntry (readMigrations file) data.id &&
      !env.skipMigrationValidation) = false) :
    isAlreadySentErr (runMain env chain file data now).outcome = false := by
  have hloop := sendLoop_outcome env chain data.token data.distributionTypeId
    ((chunks batchSize (data.amounts.map Prod.fst)).zip
      (chunks batchSize (data.amounts.map Prod.snd))) 0 0
  simp only [runMain, hpass, Bool.false_eq_true, if_false]
  cases hw : env.write with
  | false => simp [isAlreadySentErr]
  | true =>
    simp only [if_true]
    rcases hloop with hok | ⟨a, b, herr⟩
    · simp [hok, isAlreadySentErr]
    · simp [herr, isAlreadySentErr]

theorem runMain_error_leaves_file (env : Env) (chain : Chain)
    (file : Option Migrations) (data : DistributionData) (now : Nat)
    (e : RunError) (herr : (runMain env chain file data now).outcome = Except.error e) :
    (runMain env chain file data now).ledgerFile = file := by
  by_cases hc : (hasTruthyEntry (readMigrations file) data.id &&
      !env.skipMigrationValidation) = true
  · simp [runMain, hc]
  · rw [Bool.not_eq_true] at hc
    cases hw : env.write with
    | false => simp [runMain, hc, hw]
    | true =>
      simp only [runMain, hc, Bool.false_eq_true, if_false, hw, if_true] at herr ⊢
      cases hres : (sendLoop env chain data.token data.distributionTypeId [] 0 0
          ((chunks batchSize (data.amounts.map Prod.fst)).zip
            (chunks batchSize (data.amounts.map Prod.snd)))).2 with
      | ok u => rw [hres] at herr; simp at herr
      | error e2 => rfl

/-! ## Claim theorems -/

/-- Claim C1 (code bug): the duplicate-recipient check of `batchSend.ts` is
dead code — `seenRecipients` is created once and never added to, so
`seenRecipients.has(recipient)` is always false and no run ever fails with
the duplicated-recipient error; concretely, a batch containing the same
recipient twice is sent without any error and the run completes, contrary
to the claimed DuplicateRecipientError-before-send behaviour. -/
theorem c1_duplicate_check_never_fires :
    (∀ (env : Env) (chain : Chain) (file : Option Migrations) (data : DistributionData)
        (now : Nat),
        isDuplicatedRecipientErr (runMain env chain file data now).outcome = false) ∧
    runMain ⟨true, false, false⟩ ⟨3, fun _ => true⟩ none
        ⟨tokT, [(accA, 1), (accA, 2)], 4, 3⟩ 5 =
      ⟨[Action.sendBatch tokT [accA, accA] [1, 2] 4], some [(3, 5)], Except.ok ()⟩ := by
  constructor
  · intro env chain file data now
    by_cases hc : (hasTruthyEntry (readMigrations file) data.id &&
        !env.skipMigrationValidation) = true
    · simp [runMain, hc, isDuplicatedRecipientErr]
    · rw [Bool.not_eq_true] at hc
      cases hw : env.write with
      | false => simp [runMain, hc, hw, isDuplicatedRecipientErr]
      | true =>
        rcases sendLoop_outcome env chain data.token data.distributionTypeId
            ((chunks batchSize (data.amounts.map Prod.fst)).zip
              (chunks batchSize (data.amounts.map Prod.snd))) 0 0 with hok | ⟨a, b, herr⟩
        · simp [runMain, hc, hw, hok, isDuplicatedRecipientErr]
        · simp [runMain, hc, hw, herr, isDuplicatedRecipientErr]
  · rfl

/-- Claim C2: before every batch, the signer's allowance to the BatchSender
covers the total amount still to be sent — the approval phase raises the
allowance to at least the full total (approving exactly when the initial
allowance is insufficient), and sending the earlier batches decreases the
allowance and the remaining total by the same amounts; approvals precede
all batch submissions in the run's action trace. -/
theorem c2_allowance_covers_remaining :
    ∀ (env : Env) (chain : Chain) (file : Option Migrations) (data : DistributionData)
      (now k : Nat),
      (totalAmountOf (data.amounts.map Prod.snd) -
          totalAmountOf (((chunks batchSize (data.amounts.map Prod.snd)).take k).flatten) ≤
        allowanceAfterApprove chain (totalAmountOf (data.amounts.map Prod.snd)) -
          totalAmountOf (((chunks batchSize (data.amounts.map Prod.snd)).take k).flatten)) ∧
      (approveActions chain data.token (totalAmountOf (data.amounts.map Prod.snd)) ≠ [] ↔
        chain.allowance < totalAmountOf (data.amounts.map Prod.snd)) ∧
      (env.write = true →
        (hasTruthyEntry (readMigrations file) data.id &&
          !env.skipMigrationValidation) = false →
        ∃ rest, (runMain env chain file data now).actions =
          approveActions chain data.token (totalAmountOf (data.amounts.map Prod.snd)) ++
            rest) := by
  intro env chain file data now k
  refine ⟨?_, ?_, ?_⟩
  · have hle : totalAmountOf (data.amounts.map Prod.snd) ≤
        allowanceAfterApprove chain (totalAmountOf (data.amounts.map Prod.snd)) := by
      unfold allowanceAfterApprove
      by_cases hx : chain.allowance < totalAmountOf (data.amounts.map Prod.snd)
      · rw [if_pos hx]
      · rw [if_neg hx]
        exact Nat.le_of_not_lt hx
    exact Nat.sub_le_sub_right hle _
  · unfold approveActions
    by_cases hx : chain.allowance < totalAmountOf (data.amounts.map Prod.snd)
    · simp [hx]
    · simp [hx]
  · intro hw hpass
    simp only [runMain, hpass, Bool.false_eq_true, if_false, hw, if_true]
    cases hres : (sendLoop env chain data.token data.distributionTypeId [] 0 0
        ((chunks batchSize (data.amounts.map Prod.fst)).zip
          (chunks batchSize (data.amounts.map Prod.snd)))).2 with
    | ok u => exact ⟨_, rfl⟩
    | error e => exact ⟨_, rfl⟩

/-- Witness for C2 at a concrete write-mode run with zero initial
allowance. -/
theorem c2_allowance_covers_remaining_witness :
    (totalAmountOf ([(accA, 2)].map Prod.snd) -
        totalAmountOf (((chunks batchSize ([(accA, 2)].map Prod.snd)).take 0).flatten) ≤
      allowanceAfterApprove ⟨0, fun _ => true⟩ (totalAmountOf ([(accA, 2)].map Prod.snd)) -
        totalAmountOf (((chunks batchSize ([(accA, 2)].map Prod.snd)).take 0).flatten)) ∧
    ∃ rest,
      (runMain ⟨true, false, false⟩ ⟨0, fun _ => true⟩ none
        ⟨tokT, [(accA, 2)], 1, 1⟩ 9).actions =
        approveActions ⟨0, fun _ => true⟩ tokT (totalAmountOf ([(accA, 2)].map Prod.snd)) ++
          rest := by
  have h := c2_allowance_covers_remaining ⟨true, false, false⟩ ⟨0, fun _ => true⟩ none
    ⟨tokT, [(accA, 2)], 1, 1⟩ 9 0
  exact ⟨h.1, h.2.2 rfl rfl⟩

/-- Counterexample to C3 as stated: with one market of supply 21, balances
20 and 1 and a market allocation of 1.05 tokens, the included (filtered)
rewards sum to exactly the 1-token period total, yet the run still fails
with the over-allocation error, because the code compares the sum over ALL
accounts (including the below-threshold, excluded one). -/
theorem c3_overallocation_counterexample :
    processMarkets [(mktM, ⟨21, [(accA, 20), (accB, 1)]⟩)]
        [(mktM, 1050000000000000000)] [] =
      Except.ok [(accA, 1000000000000000000), (accB, 50000000000000000)] ∧
    allocationComputer [(mktM, ⟨21, [(accA, 20), (accB, 1)]⟩)]
        [(mktM, 1050000000000000000)] 1000000000000000000 =
      Except.error (AllocError.overAllocation 1050000000000000000 1000000000000000000) ∧
    (filterStage [(accA, 1000000000000000000), (accB, 50000000000000000)]).2 =
      [(accA, 1000000000000000000)] ∧
    totalAmountOf
        (((filterStage [(accA, 1000000000000000000), (accB, 50000000000000000)]).2).map
          Prod.snd) ≤ 1000000000000000000 := by
  refine ⟨rfl, rfl, rfl, by decide⟩

/-- Claim C3 (amended): the over-allocation error is raised exactly when
the sum of rewards over ALL accounts — included and below-threshold
excluded alike — exceeds the total allocated reward; the filtered sum
staying within the total does not prevent the error. -/
theorem c3_overallocation_unfiltered_exact :
    ∀ (dist : List (String × Nat)) (totalRewards : Nat),
      (isOverAllocationErr (thresholdAndCheck dist totalRewards) = true ↔
        totalRewards < (dist.map Prod.snd).sum) ∧
      (thresholdAndCheck dist totalRewards =
          Except.error (AllocError.overAllocation ((dist.map Prod.snd).sum) totalRewards) ↔
        totalRewards < (dist.map Prod.snd).sum) := by
  intro dist totalRewards
  have hfst : (filterStage dist).1 = (dist.map Prod.snd).sum := by
    simpa using filterLoop_fst dist 0 []
  simp only [thresholdAndCheck]
  rw [hfst]
  by_cases hc : totalRewards < (dist.map Prod.snd).sum
  · rw [if_pos hc]
    simp [isOverAllocationErr, hc]
  · rw [if_neg hc]
    simp [isOverAllocationErr, hc]

/-- Counterexample to C4 as stated: with supply 1 and two accounts holding
balance 1 each (the balance sum 2 passes the 1e18 reconciliation
tolerance), each account's floor-division reward of a 1-unit market
allocation is 1, so the rewards sum to 2 and exceed the market's total. -/
theorem c4_floor_sum_counterexample :
    processMarkets [(mktM, ⟨1, [(accA, 1), (accB, 1)]⟩)] [(mktM, 1)] [] =
      Except.ok [(accA, 1), (accB, 1)] ∧
    userReward 1 1 1 + userReward 1 1 1 = 2 ∧
    (((2 : Int) - (1 : Int)).natAbs ≤ expandDecimals 1 18) ∧
    ¬ (([(accA, 1), (accB, 1)].map
        (fun p : String × Nat => userReward p.2 1 1)).sum ≤ 1) := by
  refine ⟨rfl, rfl, by decide, by decide⟩

/-- Claim C4 (amended): whenever the per-account balances of a market sum
to at most the market supply, the floor-division per-account rewards sum
to at most the market's total allocated reward. -/
theorem c4_floor_sum_le_allocation :
    ∀ (balances : List (String × Nat)) (marketRewards marketTokensSupply : Nat),
      (balances.map Prod.snd).sum ≤ marketTokensSupply →
      ((balances.map fun p => userReward p.2 marketRewards marketTokensSupply).sum) ≤
        marketRewards := by
  intro balances R S hsum
  have h1 := mapRewards_sum_le balances R S
  rcases Nat.eq_zero_or_pos S with hS | hS
  · subst hS
    calc (balances.map fun p => userReward p.2 R 0).sum
        ≤ ((balances.map Prod.snd).sum * R) / 0 := h1
      _ = 0 := Nat.div_zero _
      _ ≤ R := Nat.zero_le _
  · calc (balances.map fun p => userReward p.2 R S).sum
        ≤ ((balances.map Prod.snd).sum * R) / S := h1
      _ ≤ (S * R) / S := Nat.div_le_div_right (Nat.mul_le_mul_right R hsum)
      _ = R := Nat.mul_div_cancel_left R hS

/-- Witness for C4 (amended) at concrete balances 3 and 4, supply 10,
market allocation 7. -/
theorem c4_floor_sum_le_allocation_witness :
    (([(accA, 3), (accB, 4)].map Prod.snd).sum ≤ 10) ∧
    (([(accA, 3), (accB, 4)].map
      fun p : String × Nat => userReward p.2 7 10).sum ≤ 7) :=
  ⟨by decide, c4_floor_sum_le_allocation [(accA, 3), (accB, 4)] 7 10 (by decide)⟩

/-- Claim C5: a reconciliation failure is reported exactly for a market
whose balance sum diverges from the recorded supply by more than
`expandDecimals(1, 18)` — every reported reconciliation error carries that
market's genuine supply and balance sum and they exceed the tolerance, a
market beyond tolerance does fail, markets all within tolerance never
produce the error, and a market whose balances sum exactly to its supply
never does; an error outcome carries no output mapping. -/
theorem c5_reconciliation_tolerance :
    ∀ (bd : List (String × MarketData)) (rewardsPerMarket : List (String × Nat)) (T : Nat),
      (∀ m s b, allocationComputer bd rewardsPerMarket T =
          Except.error (AllocError.reconciliation m s b) →
        ∃ md, lookupStr bd m = some md ∧
          s = md.marketTokensSupply ∧
          b = (md.userBalances.map Prod.snd).sum ∧
          ((b : Int) - (s : Int)).natAbs > expandDecimals 1 18) ∧
      (∀ m md r, ((((md.userBalances.map Prod.snd).sum : Int) -
            (md.marketTokensSupply : Int)).natAbs > expandDecimals 1 18 →
          allocationComputer [(m, md)] [(m, r)] T =
            Except.error (AllocError.reconciliation m md.marketTokensSupply
              ((md.userBalances.map Prod.snd).sum)))) ∧
      ((∀ ma mr, (ma, mr) ∈ rewardsPerMarket →
          ∀ md, lookupStr bd ma = some md →
            ((((md.userBalances.map Prod.snd).sum : Int) -
              (md.marketTokensSupply : Int)).natAbs ≤ expandDecimals 1 18)) →
        isReconciliationErr (allocationComputer bd rewardsPerMarket T) = false) ∧
      (∀ m md r, (md.userBalances.map Prod.snd).sum = md.marketTokensSupply →
        isReconciliationErr (allocationComputer [(m, md)] [(m, r)] T) = false) := by
  intro bd rewardsPerMarket T
  refine ⟨?_, ?_, ?_, ?_⟩
  · intro m s b h
    exact processMarkets_recon_sound bd rewardsPerMarket [] m s b
      ((allocationComputer_recon_iff bd rewardsPerMarket T m s b).mp h)
  · intro m md r hc
    rw [allocationComputer_recon_iff]
    have hl : lookupStr [(m, md)] m = some md := by simp [lookupStr]
    simp only [processMarkets, hl]
    rw [if_pos hc]
  · intro htol
    rw [allocationComputer_isRecon]
    exact processMarkets_no_recon bd rewardsPerMarket [] htol
  · intro m md r heq
    rw [allocationComputer_isRecon]
    apply processMarkets_no_recon
    intro ma mr hmem md2 hl
    have h := List.mem_singleton.mp hmem
    have hma : ma = m := by
      have h2 := congrArg Prod.fst h
      simpa using h2
    subst hma
    simp only [lookupStr, if_pos rfl] at hl
    cases hl
    rw [heq]
    simp

/-- Witness for C5: a market whose balances sum exactly to its supply
passes, and a market diverging by 2e18 from a zero supply fails with the
reconciliation error carrying its supply and balance sum. -/
theorem c5_reconciliation_tolerance_witness :
    isReconciliationErr
      (allocationComputer [(mktM, ⟨5, [(accA, 5)]⟩)] [(mktM, 10)] 10) = false ∧
    allocationComputer [(mktM, ⟨0, [(accA, 2000000000000000000)]⟩)] [(mktM, 1)] 10 =
      Except.error (AllocError.reconciliation mktM 0 2000000000000000000) := by
  constructor
  · exact (c5_reconciliation_tolerance [(mktM, ⟨5, [(accA, 5)]⟩)] [(mktM, 10)] 10).2.2.2
      mktM ⟨5, [(accA, 5)]⟩ 10 rfl
  · have h := (c5_reconciliation_tolerance [(mktM, ⟨0, [(accA, 2000000000000000000)]⟩)]
      [(mktM, 1)] 10).2.1 mktM ⟨0, [(accA, 2000000000000000000)]⟩ 1 (by decide)
    simpa using h

/-- Claim C6: an entry of the aggregated distribution result is included in
the output mapping exactly when it is an input entry whose reward is at
least `MIN_REWARD_THRESHOLD` (0.1 token at 18 decimals); concretely a
1-token reward is included and a 0.05-token reward is excluded. -/
theorem c6_threshold_inclusion :
    (∀ (dist : List (String × Nat)) (p : String × Nat),
        p ∈ (filterStage dist).2 ↔ p ∈ dist ∧ MIN_REWARD_THRESHOLD ≤ p.2) ∧
    (accA, 1000000000000000000) ∈ (filterStage [(accA, 1000000000000000000)]).2 ∧
    (accA, 50000000000000000) ∉ (filterStage [(accA, 50000000000000000)]).2 := by
  refine ⟨?_, by decide, by decide⟩
  intro dist p
  have h := filterLoop_mem dist 0 [] p
  simpa [filterStage] using h

/-- Claim C7: for any positive batch size the `range`/`slice` chunking
splits a list into contiguous batches of at most `bs` entries whose
concatenation, in order, is the original list. -/
theorem c7_batch_partition :
    ∀ {α : Type} (l : List α) (bs : Nat), 0 < bs →
      (chunks bs l).flatten = l ∧ ∀ c ∈ chunks bs l, c.length ≤ bs := by
  intro α l bs hbs
  exact ⟨chunksAux_join bs hbs l.length l (Nat.le_refl _),
    chunksAux_mem_length bs hbs l.length l (Nat.le_refl _)⟩

set_option maxRecDepth 4000 in
/-- Witness for C7: a 301-entry list with the script's batch size 150
yields exactly the batches of sizes 150, 150, 1, concatenating back to
the original list. -/
theorem c7_batch_partition_witness :
    ((chunks batchSize (List.range 301)).flatten = List.range 301 ∧
      ∀ c ∈ chunks batchSize (List.range 301), c.length ≤ batchSize) ∧
    (chunks batchSize (List.range 301)).map List.length = [150, 150, 1] :=
  ⟨c7_batch_partition (List.range 301) batchSize (by decide), by decide⟩

/-- Claim C8: with the distribution id truthily marked in the ledger and no
override flag, the run stops at the idempotency check — no action is
performed, the file is untouched and the outcome is the already-sent
error; with the override flag set, or the id absent, the run never fails
with the already-sent error; a missing ledger file reads as the empty
ledger. -/
theorem c8_idempotency_check :
    ∀ (env : Env) (chain : Chain) (file : Option Migrations) (data : DistributionData)
      (now : Nat),
      (hasTruthyEntry (readMigrations file) data.id = true →
        env.skipMigrationValidation = false →
        runMain env chain file data now =
          ⟨[], file, Except.error (RunError.alreadySent data.id)⟩) ∧
      (env.skipMigrationValidation = true →
        isAlreadySentErr (runMain env chain file data now).outcome = false) ∧
      (hasTruthyEntry (readMigrations file) data.id = false →
        isAlreadySentErr (runMain env chain file data now).outcome = false) ∧
      readMigrations none = ([] : Migrations) := by
  intro env chain file data now
  refine ⟨?_, ?_, ?_, rfl⟩
  · intro h1 h2
    simp [runMain, h1, h2]
  · intro h2
    exact runMain_pass_not_alreadySent env chain file data now (by simp [h2])
  · intro h1
    exact runMain_pass_not_alreadySent env chain file data now (by simp [h1])

/-- Witness for C8: a marked id without override fails fast with no action;
the same marked id with the override flag, and an unmarked id with a
missing ledger file, both pass the check. -/
theorem c8_idempotency_check_witness :
    runMain ⟨true, false, false⟩ ⟨0, fun _ => true⟩ (some [(7, 100)])
        ⟨tokT, [(accA, 5)], 1, 7⟩ 50 =
      ⟨[], some [(7, 100)], Except.error (RunError.alreadySent 7)⟩ ∧
    isAlreadySentErr (runMain ⟨true, true, false⟩ ⟨0, fun _ => true⟩ (some [(7, 100)])
      ⟨tokT, [(accA, 5)], 1, 7⟩ 50).outcome = false ∧
    isAlreadySentErr (runMain ⟨true, false, false⟩ ⟨0, fun _ => true⟩ none
      ⟨tokT, [(accA, 5)], 1, 7⟩ 50).outcome = false := by
  refine ⟨?_, ?_, ?_⟩
  · exact (c8_idempotency_check ⟨true, false, false⟩ ⟨0, fun _ => true⟩ (some [(7, 100)])
      ⟨tokT, [(accA, 5)], 1, 7⟩ 50).1 rfl rfl
  · exact (c8_idempotency_check ⟨true, true, false⟩ ⟨0, fun _ => true⟩ (some [(7, 100)])
      ⟨tokT, [(accA, 5)], 1, 7⟩ 50).2.1 rfl
  · exact (c8_idempotency_check ⟨true, false, false⟩ ⟨0, fun _ => true⟩ none
      ⟨tokT, [(accA, 5)], 1, 7⟩ 50).2.2.1 rfl

/-- Claim C9: in a write-mode run that passes the idempotency check, if
every batch call succeeds the ledger file is rewritten with the
distribution id mapped to the current timestamp and the run succeeds,
while any error outcome (in particular a failed batch transaction) leaves
the ledger file exactly as it was, so the id stays unmarked. -/
theorem c9_ledger_update_semantics :
    ∀ (env : Env) (chain : Chain) (file : Option Migrations) (data : DistributionData)
      (now : Nat),
      (env.write = true →
        (hasTruthyEntry (readMigrations file) data.id &&
          !env.skipMigrationValidation) = false →
        (∀ k, chain.batchTxSucceeds k = true) →
        (runMain env chain file data now).ledgerFile =
            some (setMigration (readMigrations file) data.id now) ∧
          (runMain env chain file data now).outcome = Except.ok ()) ∧
      (∀ e, (runMain env chain file data now).outcome = Except.error e →
        (runMain env chain file data now).ledgerFile = file) := by
  intro env chain file data now
  constructor
  · intro hw hpass hall
    have hok := sendLoop_all_success env chain data.token data.distributionTypeId hall
      ((chunks batchSize (data.amounts.map Prod.fst)).zip
        (chunks batchSize (data.amounts.map Prod.snd))) 0 0
    refine ⟨?_, ?_⟩ <;>
      simp only [runMain, hpass, Bool.false_eq_true, if_false, hw, if_true, hok]
  · intro e herr
    exact runMain_error_leaves_file env chain file data now e herr

/-- Witness for C9: a one-batch success writes the ledger entry and
succeeds; the same run with a failing batch transaction leaves the
(missing) ledger file untouched. -/
theorem c9_ledger_update_semantics_witness :
    ((runMain ⟨true, false, false⟩ ⟨10, fun _ => true⟩ none
        ⟨tokT, [(accA, 5)], 1, 7⟩ 100).ledgerFile =
      some (setMigration (readMigrations none) 7 100) ∧
      (runMain ⟨true, false, false⟩ ⟨10, fun _ => true⟩ none
        ⟨tokT, [(accA, 5)], 1, 7⟩ 100).outcome = Except.ok ()) ∧
    (runMain ⟨true, false, false⟩ ⟨10, fun _ => false⟩ none
      ⟨tokT, [(accA, 5)], 1, 7⟩ 100).ledgerFile = none := by
  constructor
  · exact (c9_ledger_update_semantics ⟨true, false, false⟩ ⟨10, fun _ => true⟩ none
      ⟨tokT, [(accA, 5)], 1, 7⟩ 100).1 rfl rfl (fun k => rfl)
  · exact (c9_ledger_update_semantics ⟨true, false, false⟩ ⟨10, fun _ => false⟩ none
      ⟨tokT, [(accA, 5)], 1, 7⟩ 100).2 (RunError.batchTxFailed 0 1) rfl

/-- Claim C10: a write-mode run under the dry-run flag whose simulations
all succeed performs no real batch transaction, yet still writes the
distribution id with the completion timestamp to the ledger file exactly
as a live run would; a later run on that ledger for the same id without
the override flag then fails fast at the idempotency check. -/
theorem c10_dryrun_write_marks_ledger :
    ∀ (env env2 : Env) (chain chain2 : Chain) (file : Option Migrations)
      (data : DistributionData) (now now2 : Nat),
      env.write = true → env.dryRun = true →
      hasTruthyEntry (readMigrations file) data.id = false →
      (∀ k, chain.batchTxSucceeds k = true) →
      0 < now →
      env2.skipMigrationValidation = false →
      (∀ a ∈ (runMain env chain file data now).actions,
        ∀ t rs ams ty, a ≠ Action.sendBatch t rs ams ty) ∧
      (runMain env chain file data now).ledgerFile =
        some (setMigration (readMigrations file) data.id now) ∧
      runMain env2 chain2 ((runMain env chain file data now).ledgerFile) data now2 =
        ⟨[], (runMain env chain file data now).ledgerFile,
          Except.error (RunError.alreadySent data.id)⟩ := by
  intro env env2 chain chain2 file data now now2 hw hdry hfresh hall hnow hskip2
  have hpass : (hasTruthyEntry (readMigrations file) data.id &&
      !env.skipMigrationValidation) = false := by simp [hfresh]
  have hok := sendLoop_all_success env chain data.token data.distributionTypeId hall
    ((chunks batchSize (data.amounts.map Prod.fst)).zip
      (chunks batchSize (data.amounts.map Prod.snd))) 0 0
  have hledger : (runMain env chain file data now).ledgerFile =
      some (setMigration (readMigrations file) data.id now) := by
    simp only [runMain, hpass, Bool.false_eq_true, if_false, hw, if_true, hok]
  have hact : (runMain env chain file data now).actions =
      approveActions chain data.token (totalAmountOf (data.amounts.map Prod.snd)) ++
        (sendLoop env chain data.token data.distributionTypeId [] 0 0
          ((chunks batchSize (data.amounts.map Prod.fst)).zip
            (chunks batchSize (data.amounts.map Prod.snd)))).1 := by
    simp only [runMain, hpass, Bool.false_eq_true, if_false, hw, if_true, hok]
  refine ⟨?_, hledger, ?_⟩
  · intro a ha t rs ams ty
    rw [hact] at ha
    rcases List.mem_append.mp ha with ha | ha
    · unfold approveActions at ha
      by_cases hx : chain.allowance < totalAmountOf (data.amounts.map Prod.snd)
      · rw [if_pos hx] at ha
        rw [List.mem_singleton.mp ha]
        simp
      · rw [if_neg hx] at ha
        simp at ha
    · obtain ⟨t2, rs2, ams2, ty2, hsim⟩ := sendLoop_dry_actions env chain data.token
        data.distributionTypeId hdry _ 0 0 a ha
      rw [hsim]
      simp
  · rw [hledger]
    have htr : hasTruthyEntry
        (readMigrations (some (setMigration (readMigrations file) data.id now)))
        data.id = true := by
      simp only [readMigrations, hasTruthyEntry, lookup_setMigration]
      simp [bne_iff_ne]
      omega
    simp [runMain, htr, hskip2]

/-- Witness for C10 at a concrete one-entry distribution: the dry-run
write-mode run only approves and simulates, writes the ledger entry, and
a later run for the same id fails fast. -/
theorem c10_dryrun_write_marks_ledger_witness :
    (∀ a ∈ (runMain ⟨true, false, true⟩ ⟨0, fun _ => true⟩ none
        ⟨tokT, [(accA, 5)], 1, 7⟩ 100).actions,
      ∀ t rs ams ty, a ≠ Action.sendBatch t rs ams ty) ∧
    (runMain ⟨true, false, true⟩ ⟨0, fun _ => true⟩ none
      ⟨tokT, [(accA, 5)], 1, 7⟩ 100).ledgerFile =
      some (setMigration (readMigrations none) 7 100) ∧
    runMain ⟨true, false, false⟩ ⟨0, fun _ => true⟩
        ((runMain ⟨true, false, true⟩ ⟨0, fun _ => true⟩ none
          ⟨tokT, [(accA, 5)], 1, 7⟩ 100).ledgerFile)
        ⟨tokT, [(accA, 5)], 1, 7⟩ 200 =
      ⟨[], (runMain ⟨true, false, true⟩ ⟨0, fun _ => true⟩ none
          ⟨tokT, [(accA, 5)], 1, 7⟩ 100).ledgerFile,
        Except.error (RunError.alreadySent 7)⟩ :=
  c10_dryrun_write_marks_ledger ⟨true, false, true⟩ ⟨true, false, false⟩
    ⟨0, fun _ => true⟩ ⟨0, fun _ => true⟩ none ⟨tokT, [(accA, 5)], 1, 7⟩ 100 200
    rfl rfl rfl (fun k => rfl) (by decide) rfl

end Dfx
